import Mathlib

set_option linter.unusedVariables false

/-!
Verification of the uah-server repository's response layer
(`src/runtime/server/response/respondError.js` and the unnamed response
module) and of the spec's compiler contracts, against a shallow embedding
in Lean 4.

JavaScript values are embedded as the inductive `JSVal`; the writes a
response function performs on the underlying uWebSockets response object
are recorded as a list of `Effect`s.
-/

namespace UAH

/-- A JavaScript value, restricted to the shapes the response layer
manipulates: primitives and plain objects (an association list of
enumerable own fields plus the constructor's name, when any). -/
inductive JSVal where
  | vUndefined
  | vNull
  | vBool (b : Bool)
  | vNum (n : Int)
  | vStr (s : String)
  | vObj (fields : List (String × JSVal)) (ctorName : Option String)
deriving Repr

/-- JavaScript truthiness. -/
def truthy : JSVal → Bool
  | .vUndefined => false
  | .vNull => false
  | .vBool b => b
  | .vNum n => n != 0
  | .vStr s => s ≠ ""
  | .vObj _ _ => true

/-- Property read `v[k]`: the first binding of `k` among the object's own
fields, `undefined` on a non-object or an absent key. -/
def getField : JSVal → String → JSVal
  | .vObj fs _, k => match fs.lookup k with
    | some v => v
    | none => .vUndefined
  | _, _ => .vUndefined

/-- Strict equality `v === n` against a numeric literal `n`. -/
def strictEqNum (v : JSVal) (n : Int) : Bool :=
  match v with
  | .vNum m => m = n
  | _ => false

/-- JavaScript string coercion `String(v)` / `v + ''`. -/
def jsToString : JSVal → String
  | .vUndefined => "undefined"
  | .vNull => "null"
  | .vBool b => if b then "true" else "false"
  | .vNum n => toString n
  | .vStr s => s
  | .vObj _ _ => "[object Object]"

/-- Constructor name read `v.constructor?.name`: the constructor name of an object when the model
records one, the wrapper class name of a primitive, `undefined` for
`null`/`undefined`. -/
def ctorNameVal : JSVal → JSVal
  | .vObj _ (some s) => .vStr s
  | .vObj _ none => .vUndefined
  | .vNum _ => .vStr "Number"
  | .vStr _ => .vStr "String"
  | .vBool _ => .vStr "Boolean"
  | .vUndefined => .vUndefined
  | .vNull => .vUndefined

/-- Modelled from the spec: the helper `isObject` imported from
`#runtime/types/checker.js`, whose source is not under `src/`; it tests
for a non-null object value. -/
def isObject : JSVal → Bool
  | .vObj _ _ => true
  | _ => false

/-- Assign field `k := v` into an association list with JavaScript object
semantics: an existing key keeps its position and gets the new value, a
fresh key is appended. -/
def setField : List (String × JSVal) → String → JSVal → List (String × JSVal)
  | [], k, v => [(k, v)]
  | p :: rest, k, v =>
      if p.1 = k then (k, v) :: rest else p :: setField rest k v

/-- Object spread `{ ...base, ...src }` restricted to the second operand:
fold the enumerable own fields of `src` into `base`. Spreading a string
contributes its indexed characters; other primitives contribute nothing. -/
def spreadInto (base : List (String × JSVal)) : JSVal → List (String × JSVal)
  | .vObj fs _ => fs.foldl (fun acc p => setField acc p.1 p.2) base
  | .vStr s =>
      (s.data.enum.map (fun p => (toString p.1, JSVal.vStr (String.singleton p.2)))).foldl
        (fun acc p => setField acc p.1 p.2) base
  | _ => base

/-- Enumerable own fields of a value: an object's field list, empty
otherwise. -/
def objFields : JSVal → List (String × JSVal)
  | .vObj fs _ => fs
  | _ => []

/-- One observable write performed on the uWebSockets response object, or
one observable call out of the response layer. `endRes` carries the value
handed to the JSON serializer (`none` when `end` is called with no body). -/
inductive Effect where
  | writeStatus (s : String)
  | writeHeader (k : String) (v : Option String)
  | endRes (body : Option JSVal)
  | consoleError (e : JSVal)
  | onErrorCall (e : JSVal) (status : JSVal)
deriving Repr

/-- The mutable response description inside the server context:
`context.response.status` and the flat `[key, value, key, value, …]`
header list. -/
structure ResponseState where
  status : JSVal
  headers : List String
deriving Repr

/-- The server context attached to a response object. -/
structure ServerCtx where
  isConnected : Bool
  response : ResponseState
deriving Repr

/-- The response object as the response layer sees it. -/
structure Res where
  context : ServerCtx
deriving Repr

namespace RespondErrorJs

/-- Line `const status = error.status || 500` of `respondError`. -/
def errStatus (error : JSVal) : JSVal :=
  if truthy (getField error "status") then getField error "status"
  else .vNum 500

/-- Normalization `error = { type: 'Error', message: error }` applied when
`isObject(error) === false` in `respondError`. -/
def normalizeError (error : JSVal) : JSVal :=
  if isObject error = false then
    .vObj [("type", .vStr "Error"), ("message", error)] (some "Object")
  else error

/-- Line `const type = error.type || error.constructor?.name || 'Error'`
of `respondError`, applied to the normalized error. -/
def errTypeVal (error : JSVal) : JSVal :=
  if truthy (getField error "type") then getField error "type"
  else if truthy (ctorNameVal error) then ctorNameVal error
  else .vStr "Error"

/-- The object handed to `stringify` by `respondError`:
`{ type, status, message: error.message }` on a 500, else
`{ type, status, ...error }`; `error` is the normalized error. -/
def errBody (status error : JSVal) : JSVal :=
  if strictEqNum status 500 then
    .vObj [("type", errTypeVal error), ("status", status),
           ("message", getField error "message")] (some "Object")
  else
    .vObj (spreadInto [("type", errTypeVal error), ("status", status)] error)
      (some "Object")

/-- Function `respondError(res, error)` from
`src/runtime/server/response/respondError.js`. `onErrorSet` models whether
the module-level `onError` hook has been installed (it is `null` at module
load). Returns the list of effects in execution order. -/
def respondError (onErrorSet : Bool) (res : Res) (error : JSVal) :
    List Effect :=
  if truthy error then
    let status := errStatus error
    let error := normalizeError error
    (if res.context.isConnected then
      [Effect.writeStatus (jsToString status),
       Effect.writeHeader "cache-control" (some "no-store"),
       Effect.writeHeader "content-type" (some "application/json"),
       Effect.endRes (some (errBody status error))]
     else [])
      ++ (if strictEqNum status 500 then [Effect.consoleError error] else [])
      ++ (if onErrorSet then [Effect.onErrorCall error status] else [])
  else if res.context.isConnected then
    [Effect.writeStatus "204", Effect.endRes none]
  else []

/-- Function `respondNoContent(res)` from
`src/runtime/server/response/respondError.js`: unconditionally corks and
writes a 204 with an empty body. -/
def respondNoContent (res : Res) : List Effect :=
  [Effect.writeStatus "204", Effect.endRes none]

end RespondErrorJs

namespace ResponseMod

/-- The header-writing loop of `writeResponse` in the unnamed response
module: consumes the flat header list two entries at a time; an odd tail
reads one slot past the end, so the last `writeHeader` receives
`undefined` as its value. -/
def headerWrites : List String → List Effect
  | k :: v :: rest => Effect.writeHeader k (some v) :: headerWrites rest
  | [k] => [Effect.writeHeader k none]
  | [] => []

/-- Function `writeResponse(res, status, headers, body)` from the unnamed response
module: writes the status unless it is the number `0`, then the headers,
then ends with the body. -/
def writeResponse (status : JSVal) (headers : List String)
    (body : Option JSVal) : List Effect :=
  (if strictEqNum status 0 then [] else [Effect.writeStatus (jsToString status)])
    ++ headerWrites headers ++ [Effect.endRes body]

/-- Expression `res.context.response.status || 204`. -/
def statusOr204 (res : Res) : JSVal :=
  if truthy res.context.response.status then res.context.response.status
  else .vNum 204

/-- Function `respondNoContent(res)` from the unnamed response module. -/
def respondNoContent (res : Res) : List Effect :=
  if res.context.isConnected then
    writeResponse (statusOr204 res) res.context.response.headers none
  else []

/-- Function `respondBinary(res, body)` from the unnamed response module. -/
def respondBinary (res : Res) (body : Option JSVal) : List Effect :=
  match body with
  | none => respondNoContent res
  | some b =>
    if res.context.isConnected then
      writeResponse res.context.response.status res.context.response.headers
        (some b)
    else []

/-- Function `respondJson(res, data)` from the unnamed response module. `data` is
`none` when the JavaScript value is `undefined`. Returns the updated
response object (the data path pushes a content-type header pair onto the
context's header list before corking) together with the effects. -/
def respondJson (res : Res) (data : Option JSVal) : Res × List Effect :=
  match data with
  | none => (res, respondNoContent res)
  | some d =>
    if res.context.isConnected then
      let headers := res.context.response.headers
        ++ ["content-type", "application/json"]
      let res' : Res :=
        { context := { res.context with
            response := { res.context.response with headers := headers } } }
      (res',
        writeResponse res.context.response.status headers
          (some (.vObj [("data", d)] (some "Object"))))
    else (res, [])

end ResponseMod

namespace Compiler

/-- Modelled from the spec: the build-time compiler is not under `src/`;
this namespace models its data model and contracts from sections 3, 4 and
8 of the specification, restricted to the constructs the stated properties
exercise. Primitive kinds of a Type Description. -/
inductive PrimKind where
  | str
  | int
  | bool
deriving Repr, DecidableEq

/-- Modelled from the spec: a constraint entry of a Type Description, a
mapping from constraint name to value; `bits w u` is the numeric bit-width
constraint at width `w` (unsigned when `u`). -/
inductive Constraint where
  | minVal (n : Int)
  | maxVal (n : Int)
  | minLength (n : Nat)
  | maxLength (n : Nat)
  | bits (width : Nat) (unsigned : Bool)
deriving Repr, DecidableEq

/-- Expected-shape description used in a ValidationError for a failed
type-kind check. -/
def PrimKind.expectedName : PrimKind → String
  | .str => "string"
  | .int => "integer"
  | .bool => "boolean"

/-- Constraint name used in a ValidationError for a failed constraint. -/
def Constraint.cname : Constraint → String
  | .minVal _ => "min"
  | .maxVal _ => "max"
  | .minLength _ => "minLength"
  | .maxLength _ => "maxLength"
  | .bits w true => "uint" ++ toString w
  | .bits w false => "int" ++ toString w

/-- Modelled from the spec: a canonical, resolved Type Description, a
tagged variant restricted to the shapes the stated properties exercise:
primitives with constraints, resolved Entity references, optional types
and object shapes with named fields. -/
inductive TypeDesc where
  | prim (k : PrimKind) (cs : List Constraint)
  | ref (target : String)
  | optional (inner : TypeDesc)
  | record (fields : List (String × TypeDesc))
deriving Repr

/-- Modelled from the spec: a `ValidationError{path, expected, value}`
entry, addressed by a structural path of field names. -/
structure ValidationError where
  path : List String
  expected : String
  value : JSVal
deriving Repr

/-- Whether a value satisfies one constraint. -/
def satisfies (c : Constraint) (v : JSVal) : Bool :=
  match c, v with
  | .minVal n, .vNum m => decide (n ≤ m)
  | .maxVal n, .vNum m => decide (m ≤ n)
  | .bits w true, .vNum m => decide (0 ≤ m) && decide (m < (2 : Int) ^ w)
  | .bits w false, .vNum m =>
      decide (-((2 : Int) ^ (w - 1)) ≤ m) && decide (m < (2 : Int) ^ (w - 1))
  | .minLength n, .vStr s => decide (n ≤ s.length)
  | .maxLength n, .vStr s => decide (s.length ≤ n)
  | _, _ => false

/-- Modelled from the spec: the type-kind check, the first stage of a
field's check. -/
def kindCheck : PrimKind → JSVal → Bool
  | .str, .vStr _ => true
  | .int, .vNum _ => true
  | .bool, .vBool _ => true
  | _, _ => false

/-- Modelled from the spec: a single field's internal check. The type-kind
check runs first; then the value constraints are applied in declared
order, short-circuiting on the first failing one, so at most one error is
produced. -/
def checkValue (k : PrimKind) (cs : List Constraint) (path : List String)
    (v : JSVal) : Option ValidationError :=
  if kindCheck k v then
    match cs.find? (fun c => !(satisfies c v)) with
    | some c => some ⟨path, c.cname, v⟩
    | none => none
  else some ⟨path, k.expectedName, v⟩

/-- Whether a Type Description is an Optional. -/
def isOptionalTy : TypeDesc → Bool
  | .optional _ => true
  | _ => false

mutual

/-- Modelled from the spec: the compiled ValidatorProgram's error pass.
Given a Type Description and an input value it produces the ordered list
of ValidationErrors: exhaustive over the fields of an object shape, while
a single field's internal check short-circuits on its first failing
constraint. -/
def validate : TypeDesc → List String → JSVal → List ValidationError
  | .prim k cs, path, v => (checkValue k cs path v).toList
  | .ref _, _, _ => []
  | .optional inner, path, v =>
      match v with
      | .vUndefined => []
      | v => validate inner path v
  | .record fields, path, v =>
      if isObject v then validateFields fields path v
      else [⟨path, "object", v⟩]
termination_by ty _ _ => (sizeOf ty, 0)

/-- Modelled from the spec: field traversal of an object shape. Every
declared field is checked (presence first, then its value) and all their
errors are collected; no top-level short-circuit. -/
def validateFields :
    List (String × TypeDesc) → List String → JSVal → List ValidationError
  | [], _, _ => []
  | (name, ty) :: rest, path, v =>
      (match getField v name with
       | .vUndefined =>
           if isOptionalTy ty then []
           else [⟨path ++ [name], "required", .vUndefined⟩]
       | fv => validate ty (path ++ [name]) fv)
        ++ validateFields rest path v
termination_by fs _ _ => (sizeOf fs, 1)

end

/-- Modelled from the spec: `compile(Type Description) -> ValidatorProgram`;
the program returns the accepted value, or the collected ValidationErrors.
(The `trim` string coercion is not modelled: no stated property exercises
it.) -/
def compile (ty : TypeDesc) (v : JSVal) :
    Except (List ValidationError) JSVal :=
  match validate ty [] v with
  | [] => .ok v
  | e :: es => .error (e :: es)

/-- Modelled from the spec: the closed entity taxonomy. -/
inductive EntityKind where
  | routeGroup
  | model
  | scheduledTask
  | testSuite
deriving Repr, DecidableEq

/-- Modelled from the spec: the kind tags of diagnostics. -/
inductive DiagKind where
  | conflictingEntityKind
  | unrecognizedEntity
  | unresolvedReference
  | invalidConstraint
  | dependencyFailed
deriving Repr, DecidableEq

/-- Modelled from the spec: a structured diagnostic, reduced to its kind
tag and the name of the declaration or member it concerns. -/
structure Diagnostic where
  kind : DiagKind
  subject : String
deriving Repr, DecidableEq

/-- Modelled from the spec: the structural signals of a top-level
declaration that the Entity Classifier inspects (route-registration
annotation, inherited model capability, inherited scheduler capability,
reserved test path or inherited test capability). -/
structure Decl where
  name : String
  hasRouteAnnotation : Bool
  inheritsModelCapability : Bool
  inheritsSchedulerCapability : Bool
  inheritsTestSignal : Bool
deriving Repr, DecidableEq

/-- Modelled from the spec: all entity kinds whose structural signal a
declaration matches. -/
def matchingKinds (d : Decl) : List EntityKind :=
  (if d.hasRouteAnnotation then [EntityKind.routeGroup] else [])
    ++ (if d.inheritsModelCapability then [EntityKind.model] else [])
    ++ (if d.inheritsSchedulerCapability then [EntityKind.scheduledTask] else [])
    ++ (if d.inheritsTestSignal then [EntityKind.testSuite] else [])

/-- Modelled from the spec: a classified Entity (its kind and name). -/
structure Entity where
  kind : EntityKind
  name : String
deriving Repr, DecidableEq

/-- Modelled from the spec: classification of a single declaration.
Exactly one matching signal yields that kind; more than one is a
ConflictingEntityKind diagnostic (ambiguity is surfaced, never resolved by
guessing); none is an unrecognized entity. -/
def classifyDecl (d : Decl) : Except Diagnostic Entity :=
  match matchingKinds d with
  | [k] => .ok ⟨k, d.name⟩
  | [] => .error ⟨DiagKind.unrecognizedEntity, d.name⟩
  | _ => .error ⟨DiagKind.conflictingEntityKind, d.name⟩

/-- Modelled from the spec: `classify(Module) -> list<Entity>` plus the
classification diagnostics; errors are recovered at Entity granularity. -/
def classify (decls : List Decl) : List Entity × List Diagnostic :=
  decls.foldr
    (fun d acc =>
      match classifyDecl d with
      | .ok e => (e :: acc.1, acc.2)
      | .error diag => (acc.1, diag :: acc.2))
    ([], [])

/-- Modelled from the spec: a Reference inside a Type Description is
either the phase-1 placeholder or the phase-2 resolved target. -/
inductive Ref where
  | placeholder (target : String)
  | resolvedRef (target : String)
deriving Repr, DecidableEq

/-- Modelled from the spec: an Entity's declared reference fields, as
pairs of field name and target Entity name, before resolution. -/
structure RawEntity where
  name : String
  fieldRefs : List (String × String)
deriving Repr, DecidableEq

/-- Modelled from the spec: phase 1 of Reference resolution registers a
placeholder Reference immediately for every reference field. -/
def phase1 (e : RawEntity) : List (String × Ref) :=
  e.fieldRefs.map (fun p => (p.1, Ref.placeholder p.2))

/-- Modelled from the spec: phase 2 replaces a placeholder with the
resolved target when the target Entity was classified in the current
build; an unknown target stays a placeholder (and becomes an
UnresolvedReference diagnostic). -/
def phase2 (known : List String) : Ref → Ref
  | .placeholder t => if t ∈ known then .resolvedRef t else .placeholder t
  | .resolvedRef t => .resolvedRef t

/-- Modelled from the spec: both phases of Reference resolution for one
Entity against the set of classified Entity names. -/
def resolveEntityRefs (known : List String) (e : RawEntity) :
    List (String × Ref) :=
  (phase1 e).map (fun p => (p.1, phase2 known p.2))

/-- Modelled from the spec: resolution of a whole build: every Entity's
reference fields are resolved against the names of all Entities of the
build. -/
def resolveBuild (ents : List RawEntity) :
    List (String × List (String × Ref)) :=
  ents.map (fun e => (e.name, resolveEntityRefs (ents.map RawEntity.name) e))

/-- Modelled from the spec: a raw numeric member as declared, carrying the
optional `min` and `max` constraint values. -/
structure RawMember where
  name : String
  minC : Option Int
  maxC : Option Int
deriving Repr, DecidableEq

/-- Modelled from the spec: whether the declared pair (min, max) is
invalid, i.e. both present with min greater than max. -/
def invalidRange (m : RawMember) : Bool :=
  match m.minC, m.maxC with
  | some lo, some hi => decide (hi < lo)
  | _, _ => false

/-- Modelled from the spec: constraint validation during resolution of a
numeric member; an invalid (min, max) pair is an InvalidConstraint
diagnostic, otherwise the member resolves to a constrained integer Type
Description. -/
def resolveMember (m : RawMember) : Except Diagnostic TypeDesc :=
  if invalidRange m then .error ⟨DiagKind.invalidConstraint, m.name⟩
  else
    .ok (.prim .int
      ((m.minC.map Constraint.minVal).toList
        ++ (m.maxC.map Constraint.maxVal).toList))

/-- Modelled from the spec: member-wise resolution of an Entity's numeric
members, recovered at member granularity. -/
def resolveMembers (ms : List RawMember) :
    List (String × TypeDesc) × List Diagnostic :=
  ms.foldr
    (fun m acc =>
      match resolveMember m with
      | .ok ty => ((m.name, ty) :: acc.1, acc.2)
      | .error diag => (acc.1, diag :: acc.2))
    ([], [])

/-- Modelled from the spec: the Validator Compiler emits one validator per
successfully resolved field and none for a field whose resolution
failed. -/
def emittedValidators (ms : List RawMember) :
    List (String × (JSVal → Except (List ValidationError) JSVal)) :=
  (resolveMembers ms).1.map (fun p => (p.1, compile p.2))

/-- Modelled from the spec: the shape-relevant summary of one
module-change notification: which module changed, whether the change
altered an Entity's kind, a Member's name or type, or any constraint
value, and which Entity's declaration was touched. A pure formatting or
comment change has all three flags false. -/
structure Change where
  modulePath : String
  alteredEntityKind : Bool
  alteredMemberNameOrType : Bool
  alteredConstraintValue : Bool
  touchedEntity : String
deriving Repr, DecidableEq

/-- Modelled from the spec: a module of the Build Graph, with the Entities
it references. -/
structure GraphModule where
  name : String
  referencedEntities : List String
deriving Repr, DecidableEq

/-- Modelled from the spec: the Build Graph as the invalidation rule sees
it. -/
structure BuildGraph where
  modules : List GraphModule
deriving Repr, DecidableEq

/-- Modelled from the spec: whether a change altered an Entity's kind, a
Member's name or type, or any constraint value. -/
def significantChange (c : Change) : Bool :=
  c.alteredEntityKind || c.alteredMemberNameOrType || c.alteredConstraintValue

/-- Modelled from the spec: the dependents marked stale by a change: none
for an insignificant change, otherwise exactly the modules that reference
the touched Entity. -/
def staleDependents (g : BuildGraph) (c : Change) : List String :=
  if significantChange c then
    (g.modules.filter
      (fun m => c.touchedEntity ∈ m.referencedEntities)).map GraphModule.name
  else []

/-- Modelled from the spec: the invalidation rule: the changed module is
marked stale, plus its stale dependents. -/
def invalidate (g : BuildGraph) (c : Change) : List String :=
  c.modulePath :: staleDependents g c

/-- Modelled from the spec: a source module of the tree handed to the
Incremental Build Coordinator: a stable path identity, its text revision
and its parsed declarations. -/
structure SourceModule where
  path : String
  text : String
  decls : List Decl
deriving Repr, DecidableEq

/-- Rendering of one classified Entity into artifact bytes. -/
def renderEntity (e : Entity) : String :=
  e.name ++ ":" ++
    (match e.kind with
     | .routeGroup => "route"
     | .model => "model"
     | .scheduledTask => "task"
     | .testSuite => "test")

/-- Modelled from the spec: deterministic emission of one module's
artifact from its classified Entities. -/
def emitModule (m : SourceModule) : String :=
  String.intercalate ";" ((classify m.decls).1.map renderEntity)

/-- Modelled from the spec: the Build Graph state the coordinator keeps
between generations: last-parsed revision per module, and the artifacts on
disk. -/
structure BuildState where
  lastText : List (String × String)
  artifacts : List (String × String)
deriving Repr, DecidableEq

/-- Modelled from the spec: a full (first) build generation: every module
is parsed and emitted. -/
def fullBuild (tree : List SourceModule) : BuildState :=
  { lastText := tree.map (fun m => (m.path, m.text)),
    artifacts := tree.map (fun m => (m.path, emitModule m)) }

/-- Modelled from the spec: an incremental build generation: a module
whose text is unchanged keeps its on-disk artifact, a changed or new
module is re-emitted. -/
def rebuild (st : BuildState) (tree : List SourceModule) : BuildState :=
  { lastText := tree.map (fun m => (m.path, m.text)),
    artifacts := tree.map (fun m =>
      if st.lastText.lookup m.path = some m.text then
        (m.path, (st.artifacts.lookup m.path).getD (emitModule m))
      else (m.path, emitModule m)) }

/-- Modelled from the spec: the check a single declared field contributes
at the top level of an object shape: presence first (an absent
non-optional field is one required error at the field's path), then the
field's own validation. -/
def fieldResult (v : JSVal) (p : String × TypeDesc) :
    List ValidationError :=
  match getField v p.1 with
  | .vUndefined =>
      if isOptionalTy p.2 then []
      else [⟨[p.1], "required", .vUndefined⟩]
  | fv => validate p.2 [p.1] fv

/-- Whether a declared field is a required field missing from the
input. -/
def missingRequired (v : JSVal) (p : String × TypeDesc) : Bool :=
  (match getField v p.1 with
   | .vUndefined => true
   | _ => false) && !(isOptionalTy p.2)

end Compiler

theorem lookup_setField_self (fs : List (String × JSVal)) (k : String)
    (v : JSVal) : (setField fs k v).lookup k = some v := by
  induction fs with
  | nil => simp [setField, List.lookup]
  | cons p rest ih =>
      obtain ⟨a, w⟩ := p
      by_cases h : a = k
      · subst h
        simp [setField, List.lookup]
      · have hk : (k == a) = false := by
          simp only [beq_eq_false_iff_ne, ne_eq]
          exact fun hh => h hh.symm
        simp [setField, h, List.lookup, hk, ih]

theorem lookup_setField_ne (fs : List (String × JSVal)) (k k' : String)
    (v : JSVal) (h : k' ≠ k) :
    (setField fs k v).lookup k' = fs.lookup k' := by
  induction fs with
  | nil =>
      have hk : (k' == k) = false := by
        simp only [beq_eq_false_iff_ne, ne_eq]
        exact h
      simp [setField, List.lookup, hk]
  | cons p rest ih =>
      obtain ⟨a, w⟩ := p
      by_cases ha : a = k
      · subst ha
        have hk : (k' == a) = false := by
          simp only [beq_eq_false_iff_ne, ne_eq]
          exact h
        simp [setField, List.lookup, hk]
      · by_cases ha' : k' = a
        · subst ha'
          simp [setField, ha, List.lookup]
        · have hk : (k' == a) = false := by
            simp only [beq_eq_false_iff_ne, ne_eq]
            exact ha'
          simp [setField, ha, List.lookup, hk, ih]

theorem lookup_foldl_setField_not_mem (fs : List (String × JSVal))
    (base : List (String × JSVal)) (k : String)
    (h : k ∉ fs.map Prod.fst) :
    (fs.foldl (fun acc p => setField acc p.1 p.2) base).lookup k
      = base.lookup k := by
  induction fs generalizing base with
  | nil => simp
  | cons p rest ih =>
      simp only [List.map_cons, List.mem_cons, not_or] at h
      simp only [List.foldl_cons]
      rw [ih (setField base p.1 p.2) h.2]
      exact lookup_setField_ne base p.1 k p.2 h.1

theorem lookup_foldl_setField_mem (fs : List (String × JSVal))
    (base : List (String × JSVal)) (k : String) (w : JSVal)
    (hnd : (fs.map Prod.fst).Nodup) (hmem : (k, w) ∈ fs) :
    (fs.foldl (fun acc p => setField acc p.1 p.2) base).lookup k
      = some w := by
  induction fs generalizing base with
  | nil => simp at hmem
  | cons p rest ih =>
      simp only [List.map_cons, List.nodup_cons] at hnd
      rcases List.mem_cons.mp hmem with heq | htail
      · subst heq
        simp only [List.foldl_cons]
        rw [lookup_foldl_setField_not_mem rest (setField base k w) k hnd.1]
        exact lookup_setField_self base k w
      · simp only [List.foldl_cons]
        exact ih (setField base p.1 p.2) hnd.2 htail

/-- Every field of an object is found in the spread of that object into
any base field list (JavaScript spread: later assignments win, so a field
list with distinct keys is reproduced exactly). -/
theorem lookup_spreadInto (base fs : List (String × JSVal))
    (cn : Option String) (k : String) (w : JSVal)
    (hnd : (fs.map Prod.fst).Nodup) (hmem : (k, w) ∈ fs) :
    (spreadInto base (.vObj fs cn)).lookup k = some w := by
  simpa [spreadInto] using lookup_foldl_setField_mem fs base k w hnd hmem

/-- C2: counterexample. On a disconnected response object the
`respondNoContent` of `respondError.js` still writes a 204 and ends the
response, while the `respondNoContent` of the unnamed response module
performs no write at all, so the two functions are not equivalent. -/
theorem respondNoContent_not_equivalent :
    RespondErrorJs.respondNoContent ⟨⟨false, ⟨.vNum 0, []⟩⟩⟩
      ≠ ResponseMod.respondNoContent ⟨⟨false, ⟨.vNum 0, []⟩⟩⟩ := by
  simp [RespondErrorJs.respondNoContent, ResponseMod.respondNoContent]

/-- C2 (amended): the two `respondNoContent` functions perform the same
writes on every response object that is connected, has a falsy
`context.response.status` and an empty `context.response.headers` list;
on other response objects they may differ (see the counterexample). -/
theorem respondNoContent_agree (res : Res)
    (hc : res.context.isConnected = true)
    (hs : truthy res.context.response.status = false)
    (hh : res.context.response.headers = []) :
    RespondErrorJs.respondNoContent res = ResponseMod.respondNoContent res := by
  have h1 : ResponseMod.statusOr204 res = .vNum 204 := by
    simp [ResponseMod.statusOr204, hs]
  simp only [RespondErrorJs.respondNoContent, ResponseMod.respondNoContent,
    hc, hh, h1, ResponseMod.writeResponse, ResponseMod.headerWrites,
    strictEqNum, jsToString, if_true, decide_eq_true_eq]
  rfl

/-- C2: witness for the amended equivalence at a concrete connected
response object with unset status and no headers. -/
theorem respondNoContent_agree_witness :
    (⟨⟨true, ⟨.vUndefined, []⟩⟩⟩ : Res).context.isConnected = true
    ∧ truthy (⟨⟨true, ⟨.vUndefined, []⟩⟩⟩ : Res).context.response.status = false
    ∧ RespondErrorJs.respondNoContent ⟨⟨true, ⟨.vUndefined, []⟩⟩⟩
        = ResponseMod.respondNoContent ⟨⟨true, ⟨.vUndefined, []⟩⟩⟩ :=
  ⟨rfl, rfl, respondNoContent_agree ⟨⟨true, ⟨.vUndefined, []⟩⟩⟩ rfl rfl rfl⟩

theorem mem_headerWrites : ∀ (hs : List String) (e : Effect),
    e ∈ ResponseMod.headerWrites hs → ∃ k v, e = Effect.writeHeader k v
  | [], e, h => by simp [ResponseMod.headerWrites] at h
  | [k], e, h => by
      simp only [ResponseMod.headerWrites, List.mem_singleton] at h
      exact ⟨k, none, h⟩
  | k :: v :: rest, e, h => by
      simp only [ResponseMod.headerWrites, List.mem_cons] at h
      rcases h with h | h
      · exact ⟨k, some v, h⟩
      · exact mem_headerWrites rest e h

theorem mem_writeResponse (status : JSVal) (headers : List String)
    (body : Option JSVal) (e : Effect)
    (h : e ∈ ResponseMod.writeResponse status headers body) :
    e = Effect.endRes body ∨ (∃ s, e = Effect.writeStatus s)
      ∨ ∃ k v, e = Effect.writeHeader k v := by
  simp only [ResponseMod.writeResponse, List.mem_append] at h
  rcases h with (h | h) | h
  · split at h
    · simp at h
    · simp only [List.mem_singleton] at h
      exact Or.inr (Or.inl ⟨_, h⟩)
  · exact Or.inr (Or.inr (mem_headerWrites headers e h))
  · simp only [List.mem_singleton] at h
    exact Or.inl h

theorem endRes_mem_writeResponse (status : JSVal) (headers : List String)
    (body b : Option JSVal)
    (h : Effect.endRes b ∈ ResponseMod.writeResponse status headers body) :
    b = body := by
  rcases mem_writeResponse status headers body _ h with h1 | ⟨s, h1⟩ | ⟨k, v, h1⟩
  · exact (Effect.endRes.injEq _ _).mp h1
  · exact absurd h1 (by simp)
  · exact absurd h1 (by simp)

theorem endRes_in_writeResponse (status : JSVal) (headers : List String)
    (body : Option JSVal) :
    Effect.endRes body ∈ ResponseMod.writeResponse status headers body := by
  simp [ResponseMod.writeResponse]

/-- C4: `respondJson` writes a body exactly when `data` is defined and the
response is connected; the body written is the wrapper object `{ data }`
and a content-type application/json header pair is appended to the
context's header list; undefined `data` takes the no-content path, whose
status defaults to 204 when the context's response status is unset. -/
theorem respondJson_spec (res : Res) (data : Option JSVal) :
    ((∃ b, Effect.endRes (some b) ∈ (ResponseMod.respondJson res data).2)
        ↔ data ≠ none ∧ res.context.isConnected = true)
    ∧ (∀ d, data = some d → res.context.isConnected = true →
        (ResponseMod.respondJson res data).1.context.response.headers
            = res.context.response.headers ++ ["content-type", "application/json"]
        ∧ ∀ b, Effect.endRes (some b) ∈ (ResponseMod.respondJson res data).2 →
            b = .vObj [("data", d)] (some "Object"))
    ∧ (data = none →
        (ResponseMod.respondJson res data).1 = res
        ∧ (ResponseMod.respondJson res data).2 = ResponseMod.respondNoContent res
        ∧ (res.context.isConnected = true →
            truthy res.context.response.status = false →
            Effect.writeStatus "204" ∈ (ResponseMod.respondJson res data).2)) := by
  rcases data with _ | d
  · refine ⟨?_, ?_, ?_⟩
    · constructor
      · rintro ⟨b, hb⟩
        exfalso
        simp only [ResponseMod.respondJson, ResponseMod.respondNoContent] at hb
        by_cases hc : res.context.isConnected
        · rw [if_pos hc] at hb
          have := endRes_mem_writeResponse _ _ _ _ hb
          simp at this
        · rw [if_neg hc] at hb
          simp at hb
      · rintro ⟨hne, _⟩
        exact absurd rfl hne
    · intro d hd
      exact absurd hd (by simp)
    · intro _
      refine ⟨rfl, rfl, ?_⟩
      intro hc hs
      have h204 : ResponseMod.statusOr204 res = .vNum 204 := by
        simp [ResponseMod.statusOr204, hs]
      simp only [ResponseMod.respondJson, ResponseMod.respondNoContent,
        hc, if_true, h204, ResponseMod.writeResponse]
      have : strictEqNum (.vNum 204) 0 = false := rfl
      rw [this]
      simp only [Bool.false_eq_true, if_false, List.mem_append, List.mem_cons]
      left
      left
      left
      rfl
  · by_cases hc : res.context.isConnected
    · refine ⟨?_, ?_, ?_⟩
      · constructor
        · intro _
          exact ⟨by simp, hc⟩
        · intro _
          refine ⟨JSVal.vObj [("data", d)] (some "Object"), ?_⟩
          simp only [ResponseMod.respondJson, hc, if_true]
          exact endRes_in_writeResponse _ _ _
      · intro d' hd hconn
        obtain rfl : d' = d := by
          simpa using hd.symm
        refine ⟨by simp [ResponseMod.respondJson, hc], ?_⟩
        intro b hb
        simp only [ResponseMod.respondJson, hc, if_true] at hb
        have := endRes_mem_writeResponse _ _ _ _ hb
        simpa using this
      · intro hd
        exact absurd hd (by simp)
    · refine ⟨?_, ?_, ?_⟩
      · constructor
        · rintro ⟨b, hb⟩
          simp [ResponseMod.respondJson, hc] at hb
        · rintro ⟨_, hconn⟩
          exact absurd hconn (by simpa using hc)
      · intro d' hd hconn
        exact absurd hconn (by simpa using hc)
      · intro hd
        exact absurd hd (by simp)

/-- C4: witness at a concrete connected response object and defined
payload, exercising the body-writing path of `respondJson`. -/
theorem respondJson_spec_witness :
    ((∃ b, Effect.endRes (some b)
        ∈ (ResponseMod.respondJson ⟨⟨true, ⟨.vNum 200, []⟩⟩⟩
            (some (JSVal.vNum 7))).2)
      ↔ (some (JSVal.vNum 7) ≠ none
          ∧ (⟨⟨true, ⟨.vNum 200, []⟩⟩⟩ : Res).context.isConnected = true))
    ∧ (∀ d, some (JSVal.vNum 7) = some d →
        (⟨⟨true, ⟨.vNum 200, []⟩⟩⟩ : Res).context.isConnected = true →
        (ResponseMod.respondJson ⟨⟨true, ⟨.vNum 200, []⟩⟩⟩
            (some (JSVal.vNum 7))).1.context.response.headers
            = (⟨⟨true, ⟨.vNum 200, []⟩⟩⟩ : Res).context.response.headers
              ++ ["content-type", "application/json"]
        ∧ ∀ b, Effect.endRes (some b)
            ∈ (ResponseMod.respondJson ⟨⟨true, ⟨.vNum 200, []⟩⟩⟩
                (some (JSVal.vNum 7))).2 →
            b = .vObj [("data", d)] (some "Object"))
    ∧ (some (JSVal.vNum 7) = none →
        (ResponseMod.respondJson ⟨⟨true, ⟨.vNum 200, []⟩⟩⟩
            (some (JSVal.vNum 7))).1 = ⟨⟨true, ⟨.vNum 200, []⟩⟩⟩
        ∧ (ResponseMod.respondJson ⟨⟨true, ⟨.vNum 200, []⟩⟩⟩
            (some (JSVal.vNum 7))).2
            = ResponseMod.respondNoContent ⟨⟨true, ⟨.vNum 200, []⟩⟩⟩
        ∧ ((⟨⟨true, ⟨.vNum 200, []⟩⟩⟩ : Res).context.isConnected = true →
            truthy (⟨⟨true, ⟨.vNum 200, []⟩⟩⟩ : Res).context.response.status
              = false →
            Effect.writeStatus "204"
              ∈ (ResponseMod.respondJson ⟨⟨true, ⟨.vNum 200, []⟩⟩⟩
                  (some (JSVal.vNum 7))).2)) :=
  respondJson_spec ⟨⟨true, ⟨.vNum 200, []⟩⟩⟩ (some (JSVal.vNum 7))

theorem validate_uint8 (m : Int) :
    Compiler.validate (.prim .int [.bits 8 true]) [] (.vNum m)
      = if 0 ≤ m ∧ m < 256 then []
        else [⟨[], "uint8", .vNum m⟩] := by
  have hsat : Compiler.satisfies (.bits 8 true) (.vNum m)
      = (decide (0 ≤ m) && decide (m < (2 : Int) ^ 8)) := rfl
  by_cases h : 0 ≤ m ∧ m < 256
  · have hb : Compiler.satisfies (.bits 8 true) (.vNum m) = true := by
      rw [hsat]
      simp only [Bool.and_eq_true, decide_eq_true_eq]
      constructor
      · exact h.1
      · have : ((2 : Int) ^ 8) = 256 := by norm_num
        rw [this]
        exact h.2
    simp [Compiler.validate, Compiler.checkValue, Compiler.kindCheck,
      List.find?, hb, h]
  · have hb : Compiler.satisfies (.bits 8 true) (.vNum m) = false := by
      rw [hsat]
      simp only [Bool.and_eq_false_iff, decide_eq_false_iff_not, not_le,
        not_lt]
      rcases not_and_or.mp h with h1 | h1
      · exact Or.inl (by omega)
      · right
        have : ((2 : Int) ^ 8) = 256 := by norm_num
        omega
    simp only [Compiler.validate, Compiler.checkValue, Compiler.kindCheck,
      List.find?, hb, h, Compiler.Constraint.cname, Bool.not_false,
      if_true, if_false, Option.toList_some]
    rfl

/-- C5: the compiled validator of an unsigned 8-bit numeric Type
Description enforces the exact range of the width: it accepts an integer
input exactly when it lies in [0, 255], rejects (with the uint8
ValidationError) every input at or above 256, and accepts no non-integer
input. -/
theorem uint8_exact_range (n : Int) :
    (Compiler.compile (.prim .int [.bits 8 true]) (.vNum n)
        = .ok (.vNum n) ↔ 0 ≤ n ∧ n ≤ 255)
    ∧ (256 ≤ n → Compiler.compile (.prim .int [.bits 8 true]) (.vNum n)
        = .error [⟨[], "uint8", .vNum n⟩])
    ∧ (∀ v : JSVal,
        (∃ r, Compiler.compile (.prim .int [.bits 8 true]) v = .ok r) →
        ∃ m : Int, v = .vNum m ∧ 0 ≤ m ∧ m ≤ 255) := by
  refine ⟨?_, ?_, ?_⟩
  · rw [Compiler.compile, validate_uint8]
    by_cases h : 0 ≤ n ∧ n < 256
    · simp [h]
      omega
    · simp [h]
      omega
  · intro h256
    have h : ¬ (0 ≤ n ∧ n < 256) := by omega
    rw [Compiler.compile, validate_uint8]
    simp [h]
  · rintro v ⟨r, hr⟩
    cases v with
    | vNum m =>
        refine ⟨m, rfl, ?_⟩
        rw [Compiler.compile, validate_uint8] at hr
        by_cases h : 0 ≤ m ∧ m < 256
        · omega
        · simp [h] at hr
    | vUndefined =>
        simp [Compiler.compile, Compiler.validate, Compiler.checkValue,
          Compiler.kindCheck] at hr
    | vNull =>
        simp [Compiler.compile, Compiler.validate, Compiler.checkValue,
          Compiler.kindCheck] at hr
    | vBool b =>
        simp [Compiler.compile, Compiler.validate, Compiler.checkValue,
          Compiler.kindCheck] at hr
    | vStr s =>
        simp [Compiler.compile, Compiler.validate, Compiler.checkValue,
          Compiler.kindCheck] at hr
    | vObj fs cn =>
        simp [Compiler.compile, Compiler.validate, Compiler.checkValue,
          Compiler.kindCheck] at hr

/-- C5: witness evaluating the unsigned 8-bit validator at the concrete
integer 42, inside the stated range. -/
theorem uint8_exact_range_witness :
    (Compiler.compile (.prim .int [.bits 8 true]) (.vNum 42)
        = .ok (.vNum 42) ↔ (0 : Int) ≤ 42 ∧ (42 : Int) ≤ 255)
    ∧ ((256 : Int) ≤ 42 →
        Compiler.compile (.prim .int [.bits 8 true]) (.vNum 42)
          = .error [⟨[], "uint8", .vNum 42⟩])
    ∧ (∀ v : JSVal,
        (∃ r, Compiler.compile (.prim .int [.bits 8 true]) v = .ok r) →
        ∃ m : Int, v = .vNum m ∧ 0 ≤ m ∧ m ≤ 255) :=
  uint8_exact_range 42

theorem classify_cons (d : Compiler.Decl) (t : List Compiler.Decl) :
    Compiler.classify (d :: t)
      = match Compiler.classifyDecl d with
        | .ok e => (e :: (Compiler.classify t).1, (Compiler.classify t).2)
        | .error g =>
            ((Compiler.classify t).1, g :: (Compiler.classify t).2) := rfl

theorem mem_classify_fst (decls : List Compiler.Decl) (e : Compiler.Entity)
    (h : e ∈ (Compiler.classify decls).1) :
    ∃ d ∈ decls, Compiler.classifyDecl d = .ok e := by
  induction decls with
  | nil => simp [Compiler.classify] at h
  | cons a t ih =>
      rw [classify_cons] at h
      split at h
      next e' hc =>
        simp only [List.mem_cons] at h
        rcases h with rfl | h
        · exact ⟨a, List.mem_cons_self a t, hc⟩
        · obtain ⟨d, hd, hok⟩ := ih h
          exact ⟨d, List.mem_cons_of_mem a hd, hok⟩
      next g hc =>
        obtain ⟨d, hd, hok⟩ := ih h
        exact ⟨d, List.mem_cons_of_mem a hd, hok⟩

theorem classifyDecl_ok_name (d : Compiler.Decl) (e : Compiler.Entity)
    (h : Compiler.classifyDecl d = .ok e) : e.name = d.name := by
  unfold Compiler.classifyDecl at h
  split at h
  · cases h
    rfl
  · exact Except.noConfusion h
  · exact Except.noConfusion h

theorem classifyDecl_conflict (d : Compiler.Decl)
    (h : 2 ≤ (Compiler.matchingKinds d).length) :
    Compiler.classifyDecl d
      = .error ⟨.conflictingEntityKind, d.name⟩ := by
  unfold Compiler.classifyDecl
  cases hm : Compiler.matchingKinds d with
  | nil =>
      rw [hm] at h
      simp at h
  | cons k rest =>
      cases rest with
      | nil =>
          rw [hm] at h
          simp at h
      | cons k2 r2 => rfl

theorem conflict_diag_mem (decls : List Compiler.Decl) (d : Compiler.Decl)
    (hmem : d ∈ decls) (hconf : 2 ≤ (Compiler.matchingKinds d).length) :
    (⟨.conflictingEntityKind, d.name⟩ : Compiler.Diagnostic)
      ∈ (Compiler.classify decls).2 := by
  induction decls with
  | nil => simp at hmem
  | cons a t ih =>
      rw [classify_cons]
      rcases List.mem_cons.mp hmem with rfl | hmem'
      · rw [classifyDecl_conflict d hconf]
        exact List.mem_cons_self _ _
      · split
        · exact ih hmem'
        · exact List.mem_cons_of_mem _ (ih hmem')

/-- C6: a declaration whose structural signals match more than one entity
kind is classified as a ConflictingEntityKind diagnostic for that
declaration; the module's classification carries that diagnostic and
assigns the declaration no entity kind — ambiguity is never silently
resolved in favour of one of the matching kinds. -/
theorem conflicting_entity_kind (decls : List Compiler.Decl)
    (d : Compiler.Decl) (hmem : d ∈ decls)
    (hconf : 2 ≤ (Compiler.matchingKinds d).length)
    (hnames : (decls.map Compiler.Decl.name).Nodup) :
    Compiler.classifyDecl d
        = .error ⟨.conflictingEntityKind, d.name⟩
    ∧ (⟨.conflictingEntityKind, d.name⟩ : Compiler.Diagnostic)
        ∈ (Compiler.classify decls).2
    ∧ ∀ e ∈ (Compiler.classify decls).1, e.name ≠ d.name := by
  refine ⟨classifyDecl_conflict d hconf,
    conflict_diag_mem decls d hmem hconf, ?_⟩
  intro e he hename
  obtain ⟨d', hd', hok⟩ := mem_classify_fst decls e he
  have hname' : d'.name = d.name := by
    rw [← classifyDecl_ok_name d' e hok, hename]
  have hdd : d' = d := List.inj_on_of_nodup_map hnames hd' hmem hname'
  rw [hdd, classifyDecl_conflict d hconf] at hok
  exact Except.noConfusion hok

/-- C6: witness at a concrete module with one declaration that both
carries the route annotation and inherits the model capability. -/
theorem conflicting_entity_kind_witness :
    (⟨"Users", true, true, false, false⟩ : Compiler.Decl)
        ∈ [(⟨"Users", true, true, false, false⟩ : Compiler.Decl)]
    ∧ 2 ≤ (Compiler.matchingKinds ⟨"Users", true, true, false, false⟩).length
    ∧ (Compiler.classifyDecl ⟨"Users", true, true, false, false⟩
        = .error ⟨.conflictingEntityKind, "Users"⟩
      ∧ (⟨.conflictingEntityKind, "Users"⟩ : Compiler.Diagnostic)
          ∈ (Compiler.classify [⟨"Users", true, true, false, false⟩]).2
      ∧ ∀ e ∈ (Compiler.classify [⟨"Users", true, true, false, false⟩]).1,
          e.name ≠ "Users") :=
  ⟨List.mem_singleton.mpr rfl, by decide,
    conflicting_entity_kind [⟨"Users", true, true, false, false⟩]
      ⟨"Users", true, true, false, false⟩ (List.mem_singleton.mpr rfl)
      (by decide) (by simp)⟩

theorem resolveEntityRefs_resolves (known : List String)
    (e : Compiler.RawEntity) (f tgt : String)
    (hf : (f, tgt) ∈ e.fieldRefs) (htgt : tgt ∈ known) :
    (f, Compiler.Ref.resolvedRef tgt)
      ∈ Compiler.resolveEntityRefs known e := by
  simp only [Compiler.resolveEntityRefs, Compiler.phase1, List.map_map,
    List.mem_map, Function.comp]
  refine ⟨(f, tgt), hf, ?_⟩
  simp [Compiler.phase2, htgt]

/-- C7: for every pair of Entities whose Model fields reference each
other — a self-reference included, since the pair need not be distinct —
the two-phase resolution (a terminating total function) leaves, after
phase 2, a resolved non-placeholder Reference on both fields, and both
Entities appear in the resolved build. -/
theorem mutual_references_resolved (ents : List Compiler.RawEntity)
    (a b : Compiler.RawEntity) (fa fb : String)
    (ha : a ∈ ents) (hb : b ∈ ents)
    (hfa : (fa, b.name) ∈ a.fieldRefs) (hfb : (fb, a.name) ∈ b.fieldRefs) :
    (a.name, Compiler.resolveEntityRefs (ents.map Compiler.RawEntity.name) a)
        ∈ Compiler.resolveBuild ents
    ∧ (fa, Compiler.Ref.resolvedRef b.name)
        ∈ Compiler.resolveEntityRefs (ents.map Compiler.RawEntity.name) a
    ∧ (fb, Compiler.Ref.resolvedRef a.name)
        ∈ Compiler.resolveEntityRefs (ents.map Compiler.RawEntity.name) b := by
  refine ⟨?_, ?_, ?_⟩
  · simp only [Compiler.resolveBuild, List.mem_map]
    exact ⟨a, ha, rfl⟩
  · exact resolveEntityRefs_resolves _ a fa b.name hfa
      (List.mem_map.mpr ⟨b, hb, rfl⟩)
  · exact resolveEntityRefs_resolves _ b fb a.name hfb
      (List.mem_map.mpr ⟨a, ha, rfl⟩)

/-- C7: witness at two concrete Entities A and B whose single fields
reference each other. -/
theorem mutual_references_resolved_witness :
    (⟨"A", [("b", "B")]⟩ : Compiler.RawEntity)
        ∈ [(⟨"A", [("b", "B")]⟩ : Compiler.RawEntity), ⟨"B", [("a", "A")]⟩]
    ∧ (("A",
        Compiler.resolveEntityRefs
          ([(⟨"A", [("b", "B")]⟩ : Compiler.RawEntity), ⟨"B", [("a", "A")]⟩].map
            Compiler.RawEntity.name) ⟨"A", [("b", "B")]⟩)
          ∈ Compiler.resolveBuild
              [(⟨"A", [("b", "B")]⟩ : Compiler.RawEntity), ⟨"B", [("a", "A")]⟩]
      ∧ ("b", Compiler.Ref.resolvedRef "B")
          ∈ Compiler.resolveEntityRefs
              ([(⟨"A", [("b", "B")]⟩ : Compiler.RawEntity), ⟨"B", [("a", "A")]⟩].map
                Compiler.RawEntity.name) ⟨"A", [("b", "B")]⟩
      ∧ ("a", Compiler.Ref.resolvedRef "A")
          ∈ Compiler.resolveEntityRefs
              ([(⟨"A", [("b", "B")]⟩ : Compiler.RawEntity), ⟨"B", [("a", "A")]⟩].map
                Compiler.RawEntity.name) ⟨"B", [("a", "A")]⟩) :=
  ⟨by simp,
    mutual_references_resolved
      [⟨"A", [("b", "B")]⟩, ⟨"B", [("a", "A")]⟩]
      ⟨"A", [("b", "B")]⟩ ⟨"B", [("a", "A")]⟩ "b" "a"
      (by simp) (by simp) (by simp) (by simp)⟩

theorem resolveMembers_cons (m : Compiler.RawMember)
    (t : List Compiler.RawMember) :
    Compiler.resolveMembers (m :: t)
      = match Compiler.resolveMember m with
        | .ok ty =>
            ((m.name, ty) :: (Compiler.resolveMembers t).1,
              (Compiler.resolveMembers t).2)
        | .error g =>
            ((Compiler.resolveMembers t).1,
              g :: (Compiler.resolveMembers t).2) := rfl

theorem resolveMember_invalid (m : Compiler.RawMember) (lo hi : Int)
    (hlo : m.minC = some lo) (hhi : m.maxC = some hi) (hgt : hi < lo) :
    Compiler.resolveMember m
      = .error ⟨.invalidConstraint, m.name⟩ := by
  have hr : Compiler.invalidRange m = true := by
    simp [Compiler.invalidRange, hlo, hhi, hgt]
  simp [Compiler.resolveMember, hr]

theorem invalid_diag_mem (ms : List Compiler.RawMember)
    (m : Compiler.RawMember) (hmem : m ∈ ms)
    (hinv : Compiler.resolveMember m
      = .error ⟨.invalidConstraint, m.name⟩) :
    (⟨.invalidConstraint, m.name⟩ : Compiler.Diagnostic)
      ∈ (Compiler.resolveMembers ms).2 := by
  induction ms with
  | nil => simp at hmem
  | cons a t ih =>
      rw [resolveMembers_cons]
      rcases List.mem_cons.mp hmem with rfl | hmem'
      · rw [hinv]
        exact List.mem_cons_self _ _
      · split
        · exact ih hmem'
        · exact List.mem_cons_of_mem _ (ih hmem')

theorem mem_resolveMembers_fst (ms : List Compiler.RawMember)
    (p : String × Compiler.TypeDesc)
    (h : p ∈ (Compiler.resolveMembers ms).1) :
    ∃ m ∈ ms, m.name = p.1 ∧ ∃ ty, Compiler.resolveMember m = .ok ty := by
  induction ms with
  | nil => simp [Compiler.resolveMembers] at h
  | cons a t ih =>
      rw [resolveMembers_cons] at h
      split at h
      next ty hc =>
        simp only [List.mem_cons] at h
        rcases h with rfl | h
        · exact ⟨a, List.mem_cons_self a t, rfl, ty, hc⟩
        · obtain ⟨m, hm, hn, hty⟩ := ih h
          exact ⟨m, List.mem_cons_of_mem a hm, hn, hty⟩
      next g hc =>
        obtain ⟨m, hm, hn, hty⟩ := ih h
        exact ⟨m, List.mem_cons_of_mem a hm, hn, hty⟩

/-- C8: a member whose declared numeric constraints carry a pair
(min, max) with min greater than max resolves to an InvalidConstraint
diagnostic for that member, the diagnostic appears in the member-wise
resolution output, and the Validator Compiler emits no validator for that
field. -/
theorem invalid_constraint_no_validator (ms : List Compiler.RawMember)
    (m : Compiler.RawMember) (lo hi : Int)
    (hmem : m ∈ ms) (hlo : m.minC = some lo) (hhi : m.maxC = some hi)
    (hgt : hi < lo)
    (hnames : (ms.map Compiler.RawMember.name).Nodup) :
    Compiler.resolveMember m
        = .error ⟨.invalidConstraint, m.name⟩
    ∧ (⟨.invalidConstraint, m.name⟩ : Compiler.Diagnostic)
        ∈ (Compiler.resolveMembers ms).2
    ∧ ∀ p ∈ Compiler.emittedValidators ms, p.1 ≠ m.name := by
  have hinv := resolveMember_invalid m lo hi hlo hhi hgt
  refine ⟨hinv, invalid_diag_mem ms m hmem hinv, ?_⟩
  intro p hp hpname
  simp only [Compiler.emittedValidators, List.mem_map] at hp
  obtain ⟨q, hq, hqe⟩ := hp
  obtain ⟨m', hm', hn', ty, hok⟩ := mem_resolveMembers_fst ms q hq
  have hq1 : q.1 = m.name := by
    rw [← hqe] at hpname
    exact hpname
  have hname' : m'.name = m.name := by rw [hn', hq1]
  have hmm : m' = m := List.inj_on_of_nodup_map hnames hm' hmem hname'
  rw [hmm, hinv] at hok
  exact Except.noConfusion hok

/-- C8: witness at a concrete member list whose single member declares
min 10 and max 3. -/
theorem invalid_constraint_no_validator_witness :
    (⟨"age", some 10, some 3⟩ : Compiler.RawMember)
        ∈ [(⟨"age", some 10, some 3⟩ : Compiler.RawMember)]
    ∧ (Compiler.resolveMember ⟨"age", some 10, some 3⟩
        = .error ⟨.invalidConstraint, "age"⟩
      ∧ (⟨.invalidConstraint, "age"⟩ : Compiler.Diagnostic)
          ∈ (Compiler.resolveMembers [⟨"age", some 10, some 3⟩]).2
      ∧ ∀ p ∈ Compiler.emittedValidators [⟨"age", some 10, some 3⟩],
          p.1 ≠ "age") :=
  ⟨List.mem_singleton.mpr rfl,
    invalid_constraint_no_validator [⟨"age", some 10, some 3⟩]
      ⟨"age", some 10, some 3⟩ 10 3 (List.mem_singleton.mpr rfl) rfl rfl
      (by norm_num) (by simp)⟩

/-- C9: the invalidation rule: a module-change notification that altered
neither an Entity's kind, nor a Member's name or type, nor any constraint
value (a pure formatting or comment change) marks zero dependents of the
changed module stale (only the module itself); a change to a field's
constraint value marks stale exactly the modules that reference the
field's owning Entity. -/
theorem invalidation_rule (g : Compiler.BuildGraph) (c : Compiler.Change) :
    (c.alteredEntityKind = false → c.alteredMemberNameOrType = false →
      c.alteredConstraintValue = false →
      Compiler.staleDependents g c = []
      ∧ Compiler.invalidate g c = [c.modulePath])
    ∧ (c.alteredConstraintValue = true →
      ∀ name, name ∈ Compiler.staleDependents g c
        ↔ ∃ gm ∈ g.modules,
            gm.name = name ∧ c.touchedEntity ∈ gm.referencedEntities) := by
  constructor
  · intro h1 h2 h3
    have hsig : Compiler.significantChange c = false := by
      simp [Compiler.significantChange, h1, h2, h3]
    constructor
    · simp [Compiler.staleDependents, hsig]
    · simp [Compiler.invalidate, Compiler.staleDependents, hsig]
  · intro h3 name
    have hsig : Compiler.significantChange c = true := by
      simp [Compiler.significantChange, h3]
    simp only [Compiler.staleDependents, hsig, if_true, List.mem_map,
      List.mem_filter, decide_eq_true_eq]
    constructor
    · rintro ⟨gm, ⟨hgm, href⟩, rfl⟩
      exact ⟨gm, hgm, rfl, href⟩
    · rintro ⟨gm, hgm, rfl, href⟩
      exact ⟨gm, ⟨hgm, href⟩, rfl⟩

/-- C9: witness at a concrete two-module graph, a comment-only change and
a constraint change touching the Entity referenced by one module. -/
theorem invalidation_rule_witness :
    ((⟨"m1", false, false, false, "E"⟩ : Compiler.Change).alteredEntityKind
        = false →
      (⟨"m1", false, false, false, "E"⟩ :
        Compiler.Change).alteredMemberNameOrType = false →
      (⟨"m1", false, false, false, "E"⟩ :
        Compiler.Change).alteredConstraintValue = false →
      Compiler.staleDependents ⟨[⟨"m2", ["E"]⟩, ⟨"m3", []⟩]⟩
          ⟨"m1", false, false, false, "E"⟩ = []
      ∧ Compiler.invalidate ⟨[⟨"m2", ["E"]⟩, ⟨"m3", []⟩]⟩
          ⟨"m1", false, false, false, "E"⟩ = ["m1"])
    ∧ ((⟨"m1", false, false, false, "E"⟩ :
          Compiler.Change).alteredConstraintValue = true →
        ∀ name, name ∈ Compiler.staleDependents
            ⟨[⟨"m2", ["E"]⟩, ⟨"m3", []⟩]⟩ ⟨"m1", false, false, false, "E"⟩
          ↔ ∃ gm ∈ (⟨[⟨"m2", ["E"]⟩, ⟨"m3", []⟩]⟩ :
              Compiler.BuildGraph).modules,
              gm.name = name
              ∧ (⟨"m1", false, false, false, "E"⟩ :
                  Compiler.Change).touchedEntity
                ∈ gm.referencedEntities) :=
  invalidation_rule ⟨[⟨"m2", ["E"]⟩, ⟨"m3", []⟩]⟩
    ⟨"m1", false, false, false, "E"⟩

theorem lookup_map_pair {α : Type} (tree : List Compiler.SourceModule)
    (f : Compiler.SourceModule → α) (m : Compiler.SourceModule)
    (hnd : (tree.map Compiler.SourceModule.path).Nodup) (hm : m ∈ tree) :
    (tree.map (fun x => (x.path, f x))).lookup m.path = some (f m) := by
  induction tree with
  | nil => simp at hm
  | cons a t ih =>
      simp only [List.map_cons, List.nodup_cons] at hnd
      rcases List.mem_cons.mp hm with rfl | hm'
      · simp [List.lookup]
      · have hmem : m.path ∈ t.map Compiler.SourceModule.path :=
          List.mem_map.mpr ⟨m, hm', rfl⟩
        have hne : (m.path == a.path) = false := by
          simp only [beq_eq_false_iff_ne, ne_eq]
          intro he
          exact hnd.1 (he ▸ hmem)
        simp only [List.map_cons, List.lookup, hne]
        exact ih hnd.2 hm'

theorem buildState_eq (s t : Compiler.BuildState)
    (h1 : s.lastText = t.lastText) (h2 : s.artifacts = t.artifacts) :
    s = t := by
  cases s
  cases t
  cases h1
  cases h2
  rfl

/-- C10: compiling an unchanged source tree twice produces byte-identical
artifacts: an incremental rebuild right after a full build of the same
tree yields exactly the full build's state, artifact bytes included. -/
theorem compile_idempotent (tree : List Compiler.SourceModule)
    (hnd : (tree.map Compiler.SourceModule.path).Nodup) :
    Compiler.rebuild (Compiler.fullBuild tree) tree
      = Compiler.fullBuild tree := by
  refine buildState_eq _ _ rfl ?_
  show (tree.map fun m =>
      if (Compiler.fullBuild tree).lastText.lookup m.path = some m.text then
        (m.path,
          ((Compiler.fullBuild tree).artifacts.lookup m.path).getD
            (Compiler.emitModule m))
      else (m.path, Compiler.emitModule m))
    = tree.map fun m => (m.path, Compiler.emitModule m)
  apply List.map_congr_left
  intro m hm
  have h1 : (Compiler.fullBuild tree).lastText.lookup m.path = some m.text :=
    lookup_map_pair tree (fun x => x.text) m hnd hm
  have h2 : (Compiler.fullBuild tree).artifacts.lookup m.path
      = some (Compiler.emitModule m) :=
    lookup_map_pair tree Compiler.emitModule m hnd hm
  simp [h1, h2]

/-- C10: witness at a concrete two-module source tree. -/
theorem compile_idempotent_witness :
    (([⟨"src/app/users.ts", "class Users {}", [⟨"Users", true, false, false,
        false⟩]⟩, ⟨"src/app/posts.ts", "class Posts {}", [⟨"Posts", false,
        true, false, false⟩]⟩] : List Compiler.SourceModule).map
          Compiler.SourceModule.path).Nodup
    ∧ Compiler.rebuild
        (Compiler.fullBuild
          [⟨"src/app/users.ts", "class Users {}",
            [⟨"Users", true, false, false, false⟩]⟩,
           ⟨"src/app/posts.ts", "class Posts {}",
            [⟨"Posts", false, true, false, false⟩]⟩])
        [⟨"src/app/users.ts", "class Users {}",
          [⟨"Users", true, false, false, false⟩]⟩,
         ⟨"src/app/posts.ts", "class Posts {}",
          [⟨"Posts", false, true, false, false⟩]⟩]
      = Compiler.fullBuild
          [⟨"src/app/users.ts", "class Users {}",
            [⟨"Users", true, false, false, false⟩]⟩,
           ⟨"src/app/posts.ts", "class Posts {}",
            [⟨"Posts", false, true, false, false⟩]⟩] :=
  ⟨by simp,
    compile_idempotent
      [⟨"src/app/users.ts", "class Users {}",
        [⟨"Users", true, false, false, false⟩]⟩,
       ⟨"src/app/posts.ts", "class Posts {}",
        [⟨"Posts", false, true, false, false⟩]⟩] (by simp)⟩

theorem validateFields_eq_flatMap
    (fields : List (String × Compiler.TypeDesc)) (v : JSVal) :
    Compiler.validateFields fields [] v
      = fields.flatMap (Compiler.fieldResult v) := by
  induction fields with
  | nil => simp [Compiler.validateFields]
  | cons p rest ih =>
      obtain ⟨name, ty⟩ := p
      simp only [Compiler.validateFields, List.flatMap_cons]
      rw [ih]
      congr 1

theorem fieldResult_missing (v : JSVal) (p : String × Compiler.TypeDesc)
    (h : Compiler.missingRequired v p = true) :
    Compiler.fieldResult v p = [⟨[p.1], "required", JSVal.vUndefined⟩] := by
  unfold Compiler.missingRequired at h
  unfold Compiler.fieldResult
  cases hgf : getField v p.1 <;> rw [hgf] at h <;> simp_all

theorem flatMap_fieldResult_missing
    (fields : List (String × Compiler.TypeDesc)) (v : JSVal)
    (hok : ∀ p ∈ fields, Compiler.missingRequired v p = true
      ∨ Compiler.fieldResult v p = []) :
    fields.flatMap (Compiler.fieldResult v)
      = (fields.filter (Compiler.missingRequired v)).map
          (fun p => ⟨[p.1], "required", JSVal.vUndefined⟩) := by
  induction fields with
  | nil => simp
  | cons p rest ih =>
      have hrest := ih (fun q hq => hok q (List.mem_cons_of_mem p hq))
      by_cases hmiss : Compiler.missingRequired v p = true
      · rw [List.flatMap_cons, fieldResult_missing v p hmiss,
          List.filter_cons_of_pos hmiss, List.map_cons, hrest]
        rfl
      · have hres : Compiler.fieldResult v p = [] := by
          rcases hok p (List.mem_cons_self p rest) with h | h
          · exact absurd h hmiss
          · exact h
        rw [List.flatMap_cons, hres,
          List.filter_cons_of_neg (by simpa using hmiss), hrest]
        rfl

theorem find?_first_fail (w : JSVal) (pre post : List Compiler.Constraint)
    (c : Compiler.Constraint)
    (hpre : ∀ c' ∈ pre, Compiler.satisfies c' w = true)
    (hc : Compiler.satisfies c w = false) :
    (pre ++ c :: post).find? (fun c' => !(Compiler.satisfies c' w))
      = some c := by
  induction pre with
  | nil => simp [List.find?, hc]
  | cons a t ih =>
      have ha : Compiler.satisfies a w = true :=
        hpre a (List.mem_cons_self a t)
      simp only [List.cons_append, List.find?, ha, Bool.not_true]
      exact ih (fun c' hc' => hpre c' (List.mem_cons_of_mem a hc'))

/-- C1: the compiled validator of an object-shape Type Description checks
every top-level field and collects all their errors into one list — an
input with exactly two missing required fields yields exactly two
ValidationError entries, one per missing field, each at the path of its
missing field — while inside a single field the constraint chain
short-circuits: the first failing constraint is the one reported,
whatever follows it. -/
theorem validator_top_level_exhaustive
    (fields : List (String × Compiler.TypeDesc)) (v : JSVal)
    (f1 f2 : String) (t1 t2 : Compiler.TypeDesc)
    (hobj : isObject v = true) :
    (Compiler.validate (.record fields) [] v
        = fields.flatMap (Compiler.fieldResult v))
    ∧ ((∀ p ∈ fields, Compiler.missingRequired v p = true
          ∨ Compiler.fieldResult v p = []) →
        fields.filter (Compiler.missingRequired v) = [(f1, t1), (f2, t2)] →
        Compiler.validate (.record fields) [] v
          = [⟨[f1], "required", .vUndefined⟩,
             ⟨[f2], "required", .vUndefined⟩])
    ∧ (∀ (k : Compiler.PrimKind) (pre post : List Compiler.Constraint)
        (c : Compiler.Constraint) (path : List String) (w : JSVal),
        Compiler.kindCheck k w = true →
        (∀ c' ∈ pre, Compiler.satisfies c' w = true) →
        Compiler.satisfies c w = false →
        Compiler.checkValue k (pre ++ c :: post) path w
          = some ⟨path, c.cname, w⟩) := by
  have hrec : Compiler.validate (.record fields) [] v
      = fields.flatMap (Compiler.fieldResult v) := by
    rw [← validateFields_eq_flatMap]
    simp [Compiler.validate, hobj]
  refine ⟨hrec, ?_, ?_⟩
  · intro hok hfilter
    rw [hrec, flatMap_fieldResult_missing fields v hok, hfilter]
    rfl
  · intro k pre post c path w hkind hpre hc
    unfold Compiler.checkValue
    rw [hkind, if_pos rfl, find?_first_fail w pre post c hpre hc]

/-- C1: witness at a concrete three-field object shape and an input
carrying only the middle field, so exactly the two other required fields
are missing; the short-circuit conjunct is instantiated on a string value
that violates a maxLength constraint placed before a minLength one. -/
theorem validator_top_level_exhaustive_witness :
    isObject (JSVal.vObj [("name", .vStr "x")] none) = true
    ∧ (∀ p ∈ ([("id", .prim .int []), ("name", .prim .str []),
          ("ok", .prim .bool [])] : List (String × Compiler.TypeDesc)),
        Compiler.missingRequired (JSVal.vObj [("name", .vStr "x")] none) p
          = true
        ∨ Compiler.fieldResult (JSVal.vObj [("name", .vStr "x")] none) p = [])
    ∧ ([("id", Compiler.TypeDesc.prim .int []),
        ("name", .prim .str []), ("ok", .prim .bool [])].filter
          (Compiler.missingRequired (JSVal.vObj [("name", .vStr "x")] none))
        = [("id", .prim .int []), ("ok", .prim .bool [])])
    ∧ Compiler.validate
        (.record [("id", .prim .int []), ("name", .prim .str []),
          ("ok", .prim .bool [])]) []
        (JSVal.vObj [("name", .vStr "x")] none)
        = [⟨["id"], "required", .vUndefined⟩,
           ⟨["ok"], "required", .vUndefined⟩]
    ∧ Compiler.checkValue .str
        ([] ++ Compiler.Constraint.maxLength 2 :: [.minLength 10]) ["f"]
        (.vStr "abc")
        = some ⟨["f"], "maxLength", .vStr "abc"⟩ := by
  have hok : ∀ p ∈ ([("id", .prim .int []), ("name", .prim .str []),
      ("ok", .prim .bool [])] : List (String × Compiler.TypeDesc)),
      Compiler.missingRequired (JSVal.vObj [("name", .vStr "x")] none) p
        = true
      ∨ Compiler.fieldResult (JSVal.vObj [("name", .vStr "x")] none) p
        = [] := by
    intro p hp
    simp only [List.mem_cons, List.not_mem_nil, or_false] at hp
    rcases hp with rfl | rfl | rfl
    · left
      rfl
    · right
      have hgf : getField (JSVal.vObj [("name", .vStr "x")] none) "name"
          = JSVal.vStr "x" := rfl
      simp [Compiler.fieldResult, hgf, Compiler.validate,
        Compiler.checkValue, Compiler.kindCheck, List.find?]
    · left
      rfl
  have h := validator_top_level_exhaustive
    [("id", .prim .int []), ("name", .prim .str []), ("ok", .prim .bool [])]
    (JSVal.vObj [("name", .vStr "x")] none)
    "id" "ok" (.prim .int []) (.prim .bool []) rfl
  refine ⟨rfl, hok, rfl, ?_, ?_⟩
  · exact h.2.1 hok rfl
  · exact h.2.2 .str [] [.minLength 10] (.maxLength 2) ["f"] (.vStr "abc")
      rfl (by intro c' hc'; simp at hc') rfl

theorem respondError_unfold (onErrorSet : Bool) (res : Res) (error : JSVal)
    (htr : truthy error = true) :
    RespondErrorJs.respondError onErrorSet res error
      = (if res.context.isConnected then
          [Effect.writeStatus (jsToString (RespondErrorJs.errStatus error)),
           Effect.writeHeader "cache-control" (some "no-store"),
           Effect.writeHeader "content-type" (some "application/json"),
           Effect.endRes (some (RespondErrorJs.errBody
             (RespondErrorJs.errStatus error)
             (RespondErrorJs.normalizeError error)))]
         else [])
        ++ (if strictEqNum (RespondErrorJs.errStatus error) 500 then
              [Effect.consoleError (RespondErrorJs.normalizeError error)]
            else [])
        ++ (if onErrorSet then
              [Effect.onErrorCall (RespondErrorJs.normalizeError error)
                (RespondErrorJs.errStatus error)]
            else []) := by
  simp only [RespondErrorJs.respondError, htr, if_true]

theorem normalizeError_obj (error : JSVal)
    (hnd : ∀ fs cn, error = JSVal.vObj fs cn → (fs.map Prod.fst).Nodup) :
    ∃ fs cn, RespondErrorJs.normalizeError error = JSVal.vObj fs cn
      ∧ (fs.map Prod.fst).Nodup := by
  cases error with
  | vObj fs cn => exact ⟨fs, cn, rfl, hnd fs cn rfl⟩
  | vUndefined => exact ⟨_, _, rfl, by simp⟩
  | vNull => exact ⟨_, _, rfl, by simp⟩
  | vBool b => exact ⟨_, _, rfl, by simp⟩
  | vNum n => exact ⟨_, _, rfl, by simp⟩
  | vStr s => exact ⟨_, _, rfl, by simp⟩

/-- C3: for every truthy error, `respondError` uses `error.status` as the
HTTP status when that property is truthy and 500 otherwise; on a 500 the
serialized body holds exactly the fields type, status and message and the
error is passed to console.error; on any other status console.error is
not called and the body additionally holds every enumerable field of the
error object. -/
theorem respondError_spec (onErrorSet : Bool) (res : Res) (error : JSVal)
    (htr : truthy error = true)
    (hnd : ∀ fs cn, error = JSVal.vObj fs cn → (fs.map Prod.fst).Nodup) :
    (res.context.isConnected = true →
      Effect.writeStatus (jsToString
          (if truthy (getField error "status") then getField error "status"
           else .vNum 500))
        ∈ RespondErrorJs.respondError onErrorSet res error)
    ∧ (strictEqNum (RespondErrorJs.errStatus error) 500 = true →
        Effect.consoleError (RespondErrorJs.normalizeError error)
            ∈ RespondErrorJs.respondError onErrorSet res error
        ∧ (res.context.isConnected = true →
            Effect.endRes (some (JSVal.vObj
              [("type",
                 RespondErrorJs.errTypeVal
                   (RespondErrorJs.normalizeError error)),
               ("status", RespondErrorJs.errStatus error),
               ("message",
                 getField (RespondErrorJs.normalizeError error) "message")]
              (some "Object")))
              ∈ RespondErrorJs.respondError onErrorSet res error))
    ∧ (strictEqNum (RespondErrorJs.errStatus error) 500 = false →
        (∀ e, Effect.consoleError e
            ∉ RespondErrorJs.respondError onErrorSet res error)
        ∧ (res.context.isConnected = true →
            ∃ bf, Effect.endRes (some (JSVal.vObj bf (some "Object")))
                ∈ RespondErrorJs.respondError onErrorSet res error
              ∧ ∀ p ∈ objFields (RespondErrorJs.normalizeError error),
                  bf.lookup p.1 = some p.2)) := by
  have hE := respondError_unfold onErrorSet res error htr
  refine ⟨?_, ?_, ?_⟩
  · intro hconn
    rw [hE, hconn]
    have : (if truthy (getField error "status") then getField error "status"
        else JSVal.vNum 500) = RespondErrorJs.errStatus error := rfl
    rw [this]
    simp
  · intro h5
    constructor
    · rw [hE, h5]
      simp
    · intro hconn
      rw [hE, hconn, h5]
      have hb : RespondErrorJs.errBody (RespondErrorJs.errStatus error)
          (RespondErrorJs.normalizeError error)
          = JSVal.vObj
              [("type",
                 RespondErrorJs.errTypeVal
                   (RespondErrorJs.normalizeError error)),
               ("status", RespondErrorJs.errStatus error),
               ("message",
                 getField (RespondErrorJs.normalizeError error) "message")]
              (some "Object") := by
        simp [RespondErrorJs.errBody, h5]
      rw [hb]
      simp
  · intro h5
    constructor
    · intro e
      rw [hE, h5]
      rcases hc : res.context.isConnected <;> simp [hc]
    · intro hconn
      obtain ⟨fs, cn, heq, hndfs⟩ := normalizeError_obj error hnd
      refine ⟨spreadInto
          [("type",
             RespondErrorJs.errTypeVal (RespondErrorJs.normalizeError error)),
           ("status", RespondErrorJs.errStatus error)]
          (RespondErrorJs.normalizeError error), ?_, ?_⟩
      · rw [hE, hconn, h5]
        have hb : RespondErrorJs.errBody (RespondErrorJs.errStatus error)
            (RespondErrorJs.normalizeError error)
            = JSVal.vObj
                (spreadInto
                  [("type",
                     RespondErrorJs.errTypeVal
                       (RespondErrorJs.normalizeError error)),
                   ("status", RespondErrorJs.errStatus error)]
                  (RespondErrorJs.normalizeError error))
                (some "Object") := by
          simp [RespondErrorJs.errBody, h5]
        rw [hb]
        simp
      · intro p hp
        rw [heq] at hp ⊢
        simp only [objFields] at hp
        exact lookup_spreadInto _ fs cn p.1 p.2 hndfs
          (by simpa using hp)

/-- C3: witness at a concrete connected response and a concrete 404 error
object, exercising the non-500 branch of `respondError`. -/
theorem respondError_spec_witness :
    truthy (JSVal.vObj [("status", .vNum 404), ("message", .vStr "missing")]
        (some "NotFound")) = true
    ∧ ((⟨⟨true, ⟨.vUndefined, []⟩⟩⟩ : Res).context.isConnected = true →
        Effect.writeStatus (jsToString
            (if truthy (getField (JSVal.vObj [("status", .vNum 404),
                ("message", .vStr "missing")] (some "NotFound")) "status")
             then getField (JSVal.vObj [("status", .vNum 404),
                ("message", .vStr "missing")] (some "NotFound")) "status"
             else .vNum 500))
          ∈ RespondErrorJs.respondError false ⟨⟨true, ⟨.vUndefined, []⟩⟩⟩
              (JSVal.vObj [("status", .vNum 404),
                ("message", .vStr "missing")] (some "NotFound")))
    ∧ (strictEqNum (RespondErrorJs.errStatus
          (JSVal.vObj [("status", .vNum 404), ("message", .vStr "missing")]
            (some "NotFound"))) 500 = false →
        (∀ e, Effect.consoleError e
            ∉ RespondErrorJs.respondError false ⟨⟨true, ⟨.vUndefined, []⟩⟩⟩
                (JSVal.vObj [("status", .vNum 404),
                  ("message", .vStr "missing")] (some "NotFound")))
        ∧ ((⟨⟨true, ⟨.vUndefined, []⟩⟩⟩ : Res).context.isConnected = true →
            ∃ bf, Effect.endRes (some (JSVal.vObj bf (some "Object")))
                ∈ RespondErrorJs.respondError false
                    ⟨⟨true, ⟨.vUndefined, []⟩⟩⟩
                    (JSVal.vObj [("status", .vNum 404),
                      ("message", .vStr "missing")] (some "NotFound"))
              ∧ ∀ p ∈ objFields (RespondErrorJs.normalizeError
                  (JSVal.vObj [("status", .vNum 404),
                    ("message", .vStr "missing")] (some "NotFound"))),
                  bf.lookup p.1 = some p.2)) := by
  have h := respondError_spec false ⟨⟨true, ⟨.vUndefined, []⟩⟩⟩
    (JSVal.vObj [("status", .vNum 404), ("message", .vStr "missing")]
      (some "NotFound")) rfl
    (by
      intro fs cn hh
      cases hh
      decide)
  exact ⟨rfl, h.1, h.2.2⟩

end UAH
